import Mathlib

/-!
Verification of `number-link/input/janko/to_compact_format.py`.

The script reads all of standard input, and for each line splits it on
whitespace, parses each token with the Python builtin `int`, looks the
parsed integer up in the fixed 63-character string `labels` (Python
sequence indexing, so negative indices count from the end), joins the
looked-up characters and prints the result.

The embedding below models each of these steps over `String`/`List Char`,
with `Int` for Python integers and `Except PyErr` for the two run-time
failures that can occur (`ValueError` from `int`, `IndexError` from the
subscript). The model covers the ASCII fragment of Python text handling,
which is the domain all claims range over.
-/

/-- The two run-time errors the script can raise: `ValueError` from the
builtin `int` on a malformed token, `IndexError` from an out-of-range
subscript into `labels`. -/
inductive PyErr where
  | valueError
  | indexError
deriving DecidableEq, Repr

/-- The lookup table of the script, line 5 of the source:
`labels = ("." + "0123456789" + "abc...xyz" "ABC...XYZ")`. -/
def labels : String :=
  "." ++ "0123456789" ++
  "abcdefghijklmnopqrstuvwxyz" ++
  "ABCDEFGHIJKLMNOPQRSTUVWXYZ"

/-- Python sequence subscript `s[i]`: indices `0 ≤ i < len(s)` select from
the front, `-len(s) ≤ i < 0` select from the end (`s[len(s)+i]`), anything
else raises `IndexError`. The `getD` default is never reached inside the
guarded branches. -/
def pyIndex (s : String) (i : Int) : Except PyErr Char :=
  if 0 ≤ i ∧ i < (s.length : Int) then
    .ok (s.data.getD i.toNat ' ')
  else if -(s.length : Int) ≤ i ∧ i < 0 then
    .ok (s.data.getD (i + (s.length : Int)).toNat ' ')
  else
    .error .indexError

/-- Tail of a run of decimal digits in Python integer-literal syntax:
after the leading digit, an underscore may appear only between two
digits. -/
def digitRunTail : List Char → Bool
  | [] => true
  | c :: cs =>
    if c = '_' then
      match cs with
      | [] => false
      | d :: cs2 => d.isDigit && digitRunTail cs2
    else
      c.isDigit && digitRunTail cs

/-- A nonempty run of decimal digits with optional single underscores
between digits (the digit-part grammar accepted by the builtin `int`). -/
def digitRun : List Char → Bool
  | [] => false
  | c :: cs => c.isDigit && digitRunTail cs

/-- Base-10 value of a digit run, underscores skipped. -/
def digitsValue (cs : List Char) : Nat :=
  cs.foldl (fun acc c => if c = '_' then acc else acc * 10 + (c.toNat - 48)) 0

/-- The builtin `int` on a whitespace-stripped token: an optional sign
followed by a digit run; anything else raises `ValueError`. -/
def pyIntCore : List Char → Except PyErr Int
  | [] => .error .valueError
  | c :: cs =>
    if c = '+' then
      if digitRun cs then .ok (digitsValue cs) else .error .valueError
    else if c = '-' then
      if digitRun cs then .ok (-(digitsValue cs : Int)) else .error .valueError
    else
      if digitRun (c :: cs) then .ok (digitsValue (c :: cs)) else .error .valueError

/-- The builtin `int` applied to a string token: surrounding whitespace is
stripped, then the optionally signed digit run is parsed. -/
def pyInt (tok : String) : Except PyErr Int :=
  pyIntCore ((tok.data.dropWhile Char.isWhitespace).reverse.dropWhile
    Char.isWhitespace).reverse

/-- Accumulator pass over the characters of a line: a whitespace
character ends the token collected so far (if any); the rest extends it. -/
def pySplitAux : List Char → List Char → List String
  | acc, [] => if acc.isEmpty then [] else [String.mk acc.reverse]
  | acc, c :: cs =>
    if c.isWhitespace then
      (if acc.isEmpty then [] else [String.mk acc.reverse]) ++ pySplitAux [] cs
    else
      pySplitAux (c :: acc) cs

/-- Python `line.split()` with no argument: split on runs of whitespace,
discarding empty pieces. -/
def pySplit (line : String) : List String :=
  pySplitAux [] line.data

/-- One element of the list comprehension on line 9: `labels[int(c)]`. -/
def encodeToken (tok : String) : Except PyErr Char :=
  match pyInt tok with
  | .error e => .error e
  | .ok i => pyIndex labels i

/-- The whole comprehension `[labels[int(c)] for c in line.split()]`,
left to right, aborting at the first failing token. -/
def encodeTokens : List String → Except PyErr (List Char)
  | [] => .ok []
  | t :: ts =>
    match encodeToken t with
    | .error e => .error e
    | .ok c =>
      match encodeTokens ts with
      | .error e => .error e
      | .ok cs => .ok (c :: cs)

/-- Line 9 for one input line: split, map through the table, and
`''.join` the characters. -/
def encodeLine (line : String) : Except PyErr String :=
  match encodeTokens (pySplit line) with
  | .error e => .error e
  | .ok cs => .ok (String.mk cs)

/-- `sys.stdin.readlines()`: the input split into lines, each keeping its
terminating newline when it has one; empty input yields no lines. -/
def readlinesAux : List Char → List Char → List (List Char)
  | acc, [] => if acc.isEmpty then [] else [acc.reverse]
  | acc, c :: cs =>
    if c = '\n' then (acc.reverse ++ ['\n']) :: readlinesAux [] cs
    else readlinesAux (c :: acc) cs

/-- `sys.stdin.readlines()` on the whole input string. -/
def pyReadlines (input : String) : List String :=
  (readlinesAux [] input.data).map String.mk

/-- The loop on lines 8-9: `print` each encoded line (appending a
newline); a raised error aborts the run, keeping the output already
printed and recording the error. -/
def runLines : List String → String × Option PyErr
  | [] => ("", none)
  | l :: ls =>
    match encodeLine l with
    | .error e => ("", some e)
    | .ok s =>
      let r := runLines ls
      (s ++ "\n" ++ r.1, r.2)

/-- The whole script: read the input, recode line by line. The first
component is everything written to standard output, the second the error
that aborted the run, if any. -/
def program (input : String) : String × Option PyErr :=
  runLines (pyReadlines input)

/-- Newline-terminated concatenation of a list of output lines. -/
def joinLines : List String → String
  | [] => ""
  | s :: ss => s ++ "\n" ++ joinLines ss

/-- Inverse lookup in the table: the index of a character in `labels`. -/
def decodeChar (c : Char) : Int :=
  (labels.data.findIdx (fun x => x = c) : Int)

/-- Encoding of a row of already-parsed integers, each looked up in
`labels` as on line 9. -/
def encodeRow : List Int → Except PyErr (List Char)
  | [] => .ok []
  | v :: vs =>
    match pyIndex labels v with
    | .error e => .error e
    | .ok c =>
      match encodeRow vs with
      | .error e => .error e
      | .ok cs => .ok (c :: cs)

/-- Formalisation of the phrase of the claim under test, a valid
non-negative base-10 integer literal: a nonempty string of decimal
digits. Stated from the words of the claim, for comparison with the
behaviour of `pyInt`. -/
def isNonNegIntLiteral (tok : String) : Bool :=
  !tok.data.isEmpty && tok.data.all Char.isDigit

/-! ### Helper lemmas -/

lemma labels_length : labels.length = 63 := rfl

lemma labels_length_int : (labels.length : Int) = 63 := rfl

lemma encodeToken_eq (tok : String) (v : Int) (hp : pyInt tok = .ok v) :
    encodeToken tok = pyIndex labels v := by
  simp [encodeToken, hp]

lemma pyIndex_ok_of_range (v : Int) (h0 : 0 ≤ v) (h62 : v ≤ 62) :
    pyIndex labels v = .ok (labels.data.getD v.toNat ' ') := by
  simp only [pyIndex, labels_length_int]
  rw [if_pos ⟨h0, by omega⟩]

lemma encodeTokens_ok (ts : List String)
    (h : ∀ t ∈ ts, ∃ c, encodeToken t = .ok c) :
    ∃ cs : List Char, encodeTokens ts = .ok cs ∧ cs.length = ts.length := by
  induction ts with
  | nil => exact ⟨[], rfl, rfl⟩
  | cons t ts ih =>
    obtain ⟨c, hc⟩ := h t (by simp)
    obtain ⟨cs, hcs, hlen⟩ := ih (fun u hu => h u (by simp [hu]))
    exact ⟨c :: cs, by simp [encodeTokens, hc, hcs], by simp [hlen]⟩

lemma encodeLine_ok (line : String)
    (h : ∀ t ∈ pySplit line, ∃ v : Int, pyInt t = .ok v ∧ 0 ≤ v ∧ v ≤ 62) :
    ∃ s : String, encodeLine line = .ok s ∧
      s.length = (pySplit line).length := by
  have h2 : ∀ t ∈ pySplit line, ∃ c, encodeToken t = .ok c := by
    intro t ht
    obtain ⟨v, hp, h0, h62⟩ := h t ht
    exact ⟨_, by rw [encodeToken_eq t v hp, pyIndex_ok_of_range v h0 h62]⟩
  obtain ⟨cs, hcs, hlen⟩ := encodeTokens_ok _ h2
  exact ⟨String.mk cs, by simp [encodeLine, hcs], by simpa [String.length] using hlen⟩

lemma runLines_ok (ls : List String)
    (h : ∀ l ∈ ls, ∃ s, encodeLine l = .ok s) :
    ∃ outs : List String,
      runLines ls = (joinLines outs, none) ∧
      outs.length = ls.length ∧
      ∀ k, ∀ hk : k < ls.length, ∀ hk2 : k < outs.length,
        encodeLine (ls.get ⟨k, hk⟩) = .ok (outs.get ⟨k, hk2⟩) := by
  induction ls with
  | nil =>
    refine ⟨[], rfl, rfl, ?_⟩
    intro k hk hk2
    exact absurd hk (Nat.not_lt_zero k)
  | cons l ls ih =>
    obtain ⟨s, hs⟩ := h l (by simp)
    obtain ⟨outs, h1, h2, h3⟩ := ih (fun u hu => h u (by simp [hu]))
    refine ⟨s :: outs, ?_, by simp [h2], ?_⟩
    · simp [runLines, hs, h1, joinLines]
    · intro k hk hk2
      match k with
      | 0 => exact hs
      | Nat.succ n =>
        simp only [List.length_cons, Nat.succ_lt_succ_iff] at hk hk2
        exact h3 n hk hk2

lemma runLines_abort (pre : List String) (line : String) (post : List String)
    (e : PyErr) (hpre : ∀ l ∈ pre, ∃ s, encodeLine l = .ok s)
    (hline : encodeLine line = .error e) :
    runLines (pre ++ line :: post) = ((runLines pre).1, some e) := by
  induction pre with
  | nil => simp [runLines, hline]
  | cons p pre ih =>
    obtain ⟨s, hs⟩ := hpre p (by simp)
    have h2 := ih (fun u hu => hpre u (by simp [hu]))
    simp [runLines, hs, h2]

lemma decodeChar_getD (n : Nat) (h : n < 63) :
    labels.data.findIdx (fun x => x = labels.data.getD n ' ') = n := by
  revert h
  revert n
  decide

/-! ### Claim theorems -/

/-- C1: for every input whose lines consist of whitespace-separated
tokens all parsing to integers in [0, 62], the program emits exactly one
newline-terminated output line per input line, and output line `k` is the
encoding of input line `k`, in input order, with no error. -/
theorem spec_C1 (input : String)
    (h : ∀ l ∈ pyReadlines input, ∀ t ∈ pySplit l,
      ∃ v : Int, pyInt t = .ok v ∧ 0 ≤ v ∧ v ≤ 62) :
    ∃ outs : List String,
      program input = (joinLines outs, none) ∧
      outs.length = (pyReadlines input).length ∧
      ∀ k, ∀ hk : k < (pyReadlines input).length, ∀ hk2 : k < outs.length,
        encodeLine ((pyReadlines input).get ⟨k, hk⟩) = .ok (outs.get ⟨k, hk2⟩) := by
  have h2 : ∀ l ∈ pyReadlines input, ∃ s, encodeLine l = .ok s := by
    intro l hl
    obtain ⟨s, hs, _⟩ := encodeLine_ok l (h l hl)
    exact ⟨s, hs⟩
  obtain ⟨outs, h1, hlen, hidx⟩ := runLines_ok _ h2
  exact ⟨outs, h1, hlen, hidx⟩

/-- C1 witness: the claim applied to the concrete input "10 11\n12". -/
theorem spec_C1_witness :
    ∃ outs : List String,
      program "10 11\n12" = (joinLines outs, none) ∧
      outs.length = (pyReadlines "10 11\n12").length ∧
      ∀ k, ∀ hk : k < (pyReadlines "10 11\n12").length, ∀ hk2 : k < outs.length,
        encodeLine ((pyReadlines "10 11\n12").get ⟨k, hk⟩) =
          .ok (outs.get ⟨k, hk2⟩) := by
  apply spec_C1
  intro l hl t ht
  have hls : pyReadlines "10 11\n12" = ["10 11\n", "12"] := rfl
  rw [hls] at hl
  simp only [List.mem_cons, List.not_mem_nil, or_false] at hl
  rcases hl with h1 | h1 <;> subst h1
  · have hts : pySplit "10 11\n" = ["10", "11"] := rfl
    rw [hts] at ht
    simp only [List.mem_cons, List.not_mem_nil, or_false] at ht
    rcases ht with h2 | h2 <;> subst h2
    · exact ⟨10, rfl, by omega, by omega⟩
    · exact ⟨11, rfl, by omega, by omega⟩
  · have hts : pySplit "12" = ["12"] := rfl
    rw [hts] at ht
    simp only [List.mem_cons, List.not_mem_nil, or_false] at ht
    subst ht
    exact ⟨12, rfl, by omega, by omega⟩

/-- C2 counterexample: on the input line "10 11 12" the program outputs
"9ab", not "abc"; index 10 maps to the digit character, not to the first
lowercase letter. -/
theorem spec_C2_counterexample :
    program "10 11 12" = ("9ab\n", none) ∧
    pyIndex labels 10 = .ok '9' ∧
    "9ab\n" ≠ "abc\n" := by
  refine ⟨rfl, rfl, by decide⟩

/-- C2 amended: on the single input line "10 11 12" the program outputs
the line "9ab"; index 11 (not 10) maps to the character of the letter a,
the first lowercase letter, since the dot and the ten digit characters
occupy indices 0 through 10. -/
theorem spec_C2_amended :
    program "10 11 12" = ("9ab\n", none) ∧ pyIndex labels 11 = .ok 'a' :=
  ⟨rfl, rfl⟩

/-- C3 counterexample: the token "-1" parses to the integer -1, which
lies outside [0, 62], yet the lookup does not fail: it yields the
character of the letter Z. -/
theorem spec_C3_counterexample :
    pyInt "-1" = .ok (-1) ∧
    ((-1 : Int) < 0 ∨ 62 < (-1 : Int)) ∧
    encodeToken "-1" = .ok 'Z' :=
  ⟨rfl, by decide, rfl⟩

/-- C3 amended: a token parsing to an integer below -63 or above 62 makes
the lookup fail with an IndexError (values in [-63, -1] instead index
from the end of the table); in particular the token "63" fails so. -/
theorem spec_C3_amended (tok : String) (v : Int) (hp : pyInt tok = .ok v)
    (hout : v < -63 ∨ 63 ≤ v) :
    encodeToken tok = .error .indexError := by
  rw [encodeToken_eq tok v hp]
  simp only [pyIndex, labels_length_int]
  rw [if_neg (by omega), if_neg (by omega)]

/-- C3 witness: the amended claim applied to the token "63", and the
whole run on the input "63" aborting with the IndexError. -/
theorem spec_C3_witness :
    encodeToken "63" = .error .indexError ∧
    program "63" = ("", some .indexError) :=
  ⟨spec_C3_amended "63" 63 rfl (by omega), rfl⟩

/-- C4 counterexample: the token "-1" is not a valid non-negative base-10
integer literal, yet parsing does not fail: the builtin accepts the
leading minus sign and the run continues. -/
theorem spec_C4_counterexample :
    isNonNegIntLiteral "-1" = false ∧
    pyInt "-1" = .ok (-1) ∧
    encodeToken "-1" = .ok 'Z' :=
  ⟨rfl, rfl, rfl⟩

/-- C4 amended: a token the builtin `int` rejects (its grammar is an
optionally signed digit run, so a bare minus sign or any non-digit body
fails, but signed literals succeed) makes the whole run fail with a
ValueError: the error propagates through the lookup, and the run stops at
the offending line, emitting only the lines before it — no partial-row
fallback, no skipping; in particular the token "x" is rejected. -/
theorem spec_C4_amended :
    (∀ tok, pyInt tok = .error .valueError →
      encodeToken tok = .error .valueError) ∧
    (∀ (pre : List String) (line : String) (post : List String),
      (∀ l ∈ pre, ∃ s, encodeLine l = .ok s) →
      encodeLine line = .error .valueError →
      runLines (pre ++ line :: post) = ((runLines pre).1, some .valueError)) ∧
    pyInt "x" = .error .valueError := by
  refine ⟨?_, ?_, rfl⟩
  · intro tok h
    simp [encodeToken, h]
  · intro pre line post hpre hline
    exact runLines_abort pre line post .valueError hpre hline

/-- C4 witness: the amended claim applied to the token "x" and to the
three-line input whose middle line is "x": the first line is emitted, the
bad line and the line after it are not. -/
theorem spec_C4_witness :
    encodeToken "x" = .error .valueError ∧
    runLines ["0", "x", "5"] = (".\n", some .valueError) := by
  constructor
  · exact spec_C4_amended.1 "x" rfl
  · have h := spec_C4_amended.2.1 ["0"] "x" ["5"]
      (by intro l hl; simp only [List.mem_singleton] at hl; subst hl
          exact ⟨".", rfl⟩) rfl
    simpa using h

/-- C5: the 63 characters of the table are pairwise distinct, and for
every row of integers in [0, 62], inverse lookup of each character of the
encoded row recovers exactly the original integer sequence. -/
theorem spec_C5 :
    labels.data.Nodup ∧
    ∀ row : List Int, (∀ v ∈ row, 0 ≤ v ∧ v ≤ 62) →
      ∃ cs : List Char, encodeRow row = .ok cs ∧ cs.map decodeChar = row := by
  constructor
  · decide
  · intro row h
    induction row with
    | nil => exact ⟨[], rfl, rfl⟩
    | cons v vs ih =>
      obtain ⟨h0, h62⟩ := h v (by simp)
      obtain ⟨cs, hcs, hdec⟩ := ih (fun u hu => h u (by simp [hu]))
      refine ⟨labels.data.getD v.toNat ' ' :: cs, ?_, ?_⟩
      · simp [encodeRow, pyIndex_ok_of_range v h0 h62, hcs]
      · have hn : v.toNat < 63 := by omega
        simp only [List.map_cons, hdec, decodeChar, decodeChar_getD v.toNat hn,
          List.cons.injEq, and_true]
        exact Int.toNat_of_nonneg h0

/-- C5 witness: the round trip applied to the concrete row 10, 0, 62. -/
theorem spec_C5_witness :
    ∃ cs : List Char, encodeRow [10, 0, 62] = .ok cs ∧
      cs.map decodeChar = [10, 0, 62] :=
  spec_C5.2 [10, 0, 62] (by decide)

/-- C6: whenever a line is encoded without error, the emitted output line
has as many characters as the line has whitespace-separated tokens. -/
theorem spec_C6 (line : String) (s : String) (h : encodeLine line = .ok s) :
    s.length = (pySplit line).length := by
  rcases h2 : encodeTokens (pySplit line) with e | cs
  · rw [encodeLine, h2] at h
    exact absurd h (by simp)
  · rw [encodeLine, h2] at h
    simp only [Except.ok.injEq] at h
    subst h
    have : ∀ ts cs2, encodeTokens ts = .ok cs2 → cs2.length = ts.length := by
      intro ts
      induction ts with
      | nil => intro cs2 hn; simp [encodeTokens] at hn; simp [← hn]
      | cons t ts ih =>
        intro cs2 hc
        rcases h3 : encodeToken t with e | c <;> rw [encodeTokens, h3] at hc
        · exact absurd hc (by simp)
        · rcases h4 : encodeTokens ts with e | cs3 <;> rw [h4] at hc
          · exact absurd hc (by simp)
          · simp only [Except.ok.injEq] at hc
            subst hc
            simp [ih cs3 h4]
    simpa [String.length] using this (pySplit line) cs h2

/-- C6 witness: the claim applied to the line "10 11 12", whose encoding
"9ab" has three characters for three tokens. -/
theorem spec_C6_witness :
    encodeLine "10 11 12" = .ok "9ab" ∧
    "9ab".length = (pySplit "10 11 12").length :=
  ⟨rfl, spec_C6 "10 11 12" "9ab" rfl⟩

/-- C7 counterexample: on the two-line input "0" then "1 1" the program
outputs "." then "00", not "." then "11": index 1 is the digit character
zero, since index 0 is the dot. -/
theorem spec_C7_counterexample :
    program "0\n1 1" = (".\n00\n", none) ∧
    ".\n00\n" ≠ ".\n11\n" :=
  ⟨rfl, by decide⟩

/-- C7 amended: on the two-line input whose first line is "0" and whose
second line is "1 1", the program outputs two lines: "." followed by
"00". -/
theorem spec_C7_amended :
    program "0\n1 1" = (".\n00\n", none) :=
  rfl

/-- C8: empty input produces empty output; a line with no tokens encodes
to the empty string, so a blank input line produces an output line that
is a line terminator only. -/
theorem spec_C8 :
    program "" = ("", none) ∧
    (∀ line : String, pySplit line = [] → encodeLine line = .ok "") ∧
    program "\n" = ("\n", none) := by
  refine ⟨rfl, ?_, rfl⟩
  intro line h
  rw [encodeLine, h]
  rfl

/-- C8 witness: the blank-line clause applied to the blank line. -/
theorem spec_C8_witness : encodeLine "" = .ok "" :=
  spec_C8.2.1 "" rfl

/-- C9: the program is a deterministic function of its input text: equal
inputs produce equal outputs, in any run. -/
theorem spec_C9 (input1 input2 : String) (h : input1 = input2) :
    program input1 = program input2 := by
  rw [h]

/-- C9 witness: determinism applied to the concrete input "10 11 12". -/
theorem spec_C9_witness : program "10 11 12" = program "10 11 12" :=
  spec_C9 "10 11 12" "10 11 12" rfl

/-- C10: a token parsing to a negative integer v with -63 ≤ v ≤ -1
raises no error: the lookup agrees with the lookup at the non-negative
position 63 + v, counting from the end of the table. -/
theorem spec_C10 (tok : String) (v : Int) (hp : pyInt tok = .ok v)
    (h1 : -63 ≤ v) (h2 : v ≤ -1) :
    encodeToken tok = pyIndex labels (63 + v) ∧
    ∃ c, encodeToken tok = .ok c := by
  rw [encodeToken_eq tok v hp]
  constructor
  · simp only [pyIndex, labels_length_int]
    rw [if_neg (by omega), if_pos (by omega), if_pos (by omega)]
    rw [Int.add_comm v 63]
  · simp only [pyIndex, labels_length_int]
    rw [if_neg (by omega), if_pos (by omega)]
    exact ⟨_, rfl⟩

/-- C10 witness: the claim applied to the token "-1", which encodes to
the character of the letter Z, the last character of the table. -/
theorem spec_C10_witness :
    encodeToken "-1" = pyIndex labels (63 + (-1)) ∧
    (∃ c, encodeToken "-1" = .ok c) ∧
    encodeToken "-1" = .ok 'Z' := by
  have h := spec_C10 "-1" (-1) rfl (by omega) (by omega)
  exact ⟨h.1, h.2, rfl⟩
